import Mathlib

/-!
Shallow embedding of the rule-based quiz-generation pipeline of
`src/mcq_generator.py` (class `QuizGenerator` and the scoring part of
`display_quiz_results`), together with theorems settling the spec claims.

Python strings are modelled as Lean `String` (a list of characters);
`len`, slicing, `split`, `strip`, `lower`, `replace`, `in` and the two
regular-expression substitutions of `clean_text` are embedded as
character-list functions below.  The pseudo-random choices made by
`random.choice`, `random.sample` and `random.shuffle` are modelled by an
oracle (`Rand`) supplying one outcome per loop iteration; theorems
quantify over all oracles (all outcomes of the random choices).
-/

namespace MCQGen

/-- Whitespace characters, the regex class backslash-s of Python
(space, tab, newline, carriage return, vertical tab, form feed). -/
def isWsChar (c : Char) : Bool :=
  c == ' ' || c == '\t' || c == '\n' || c == '\r' || c == Char.ofNat 11 || c == Char.ofNat 12

/-- Word characters, the regex class backslash-w (ASCII model: letters, digits, underscore). -/
def isWordChar (c : Char) : Bool := c.isAlphanum || c == '_'

/-- The punctuation kept by the character allow-list on line 150 of src/mcq_generator.py. -/
def isAllowedPunct (c : Char) : Bool :=
  c == '.' || c == ',' || c == ';' || c == ':' || c == '!' || c == '?' ||
  c == '(' || c == ')' || c == '-'

/-- Characters surviving the substitution on line 150 of src/mcq_generator.py,
which deletes every character outside the class backslash-w, backslash-s, `.,;:!?()-`. -/
def keepChar (c : Char) : Bool := isWordChar c || isWsChar c || isAllowedPunct c

/-- Replace every maximal run of whitespace by a single space, as the
substitution of one space for the pattern backslash-s-plus does on line 148 of
src/mcq_generator.py.  The flag records whether the previous character was whitespace. -/
def collapseWsAux : Bool → List Char → List Char
  | _, [] => []
  | prevWs, c :: cs =>
    if isWsChar c then
      if prevWs then collapseWsAux true cs else ' ' :: collapseWsAux true cs
    else c :: collapseWsAux false cs

/-- The whitespace-collapsing substitution of line 148 of src/mcq_generator.py. -/
def collapseWs (l : List Char) : List Char := collapseWsAux false l

/-- Python `str.split(sep)` for a one-character separator, on character lists:
splits at every occurrence of the separator and keeps empty pieces. -/
def splitOnChar (sep : Char) : List Char → List (List Char)
  | [] => [[]]
  | c :: cs =>
    let r := splitOnChar sep cs
    if c == sep then [] :: r else (c :: r.headI) :: r.tail

/-- Python `s.split(sep)` for a one-character separator. -/
def pySplit (s : String) (sep : Char) : List String :=
  (splitOnChar sep s.data).map String.mk

/-- Drop the trailing run of characters satisfying `p`. -/
def dropTrailIf (p : Char → Bool) : List Char → List Char
  | [] => []
  | c :: cs =>
    match dropTrailIf p cs with
    | [] => if p c then [] else [c]
    | r => c :: r

/-- Python `str.strip()` on character lists: remove leading and trailing whitespace. -/
def stripL (l : List Char) : List Char := dropTrailIf isWsChar (l.dropWhile isWsChar)

/-- Python `s.strip()`. -/
def pyStrip (s : String) : String := String.mk (stripL s.data)

/-- Python `" ".join(l)`. -/
def joinSp : List String → String
  | [] => ""
  | [s] => s
  | s :: t :: rest => s ++ " " ++ joinSp (t :: rest)

/-- Embedding of `QuizGenerator.clean_text` (lines 145-154 of src/mcq_generator.py):
collapse whitespace runs, delete characters outside the allow-list, split on
newlines, keep only stripped lines longer than 10 characters, join with spaces. -/
def clean_text (text : String) : String :=
  let t1 : String := String.mk (collapseWs text.data)
  let t2 : String := String.mk (t1.data.filter keepChar)
  let lines := pySplit t2 '\n'
  let cleaned_lines := (lines.map pyStrip).filter (fun l => 10 < l.length)
  joinSp cleaned_lines

/-- Boolean list-of-characters test: is the first list a leading piece of the second? -/
def isPrefOf : List Char → List Char → Bool
  | [], _ => true
  | _ :: _, [] => false
  | a :: as, b :: bs => a == b && isPrefOf as bs

/-- Does `sub` occur contiguously inside `hay`?  Python `sub in hay` on strings. -/
def hasSub (hay sub : List Char) : Bool :=
  match hay with
  | [] => sub.isEmpty
  | _ :: t => isPrefOf sub hay || hasSub t sub

/-- Python `s.lower()` (ASCII model). -/
def pyLower (s : String) : String := String.mk (s.data.map Char.toLower)

/-- Python `sub in hay` for strings. -/
def strContains (hay sub : String) : Bool := hasSub hay.data sub.data

/-- The characters stripped from term candidates on line 166 of
src/mcq_generator.py: `.,;:!?()[]` plus both braces, double quote, apostrophe
and hyphen (the brace, quote and apostrophe characters are written by code). -/
def termStripChars : List Char :=
  ['.', ',', ';', ':', '!', '?', '(', ')', '[', ']',
   Char.ofNat 123, Char.ofNat 125, Char.ofNat 34, Char.ofNat 39, '-']

/-- Python `word.strip('.,;:!?()[]...')` of line 166: remove those characters
from both ends of the word. -/
def stripTermPunct (w : String) : String :=
  String.mk (dropTrailIf (fun c => termStripChars.contains c)
    (w.data.dropWhile (fun c => termStripChars.contains c)))

/-- Python `text.split()` (no separator): maximal runs of non-whitespace.
The accumulator holds the current in-progress word, reversed. -/
def wordsAux : List Char → List Char → List (List Char)
  | cur, [] => if cur.isEmpty then [] else [cur.reverse]
  | cur, c :: cs =>
    if isWsChar c then
      if cur.isEmpty then wordsAux [] cs else cur.reverse :: wordsAux [] cs
    else wordsAux (c :: cur) cs

/-- Python `text.split()` with no argument. -/
def pyWords (s : String) : List String := (wordsAux [] s.data).map String.mk

/-- State machine of Python `str.istitle()` (ASCII model): uppercase letters
may not follow a cased character, lowercase letters must follow a cased
character, and at least one cased character must occur. -/
def isTitleAux : Bool → Bool → List Char → Bool
  | _, cased, [] => cased
  | prevCased, cased, c :: cs =>
    if c.isUpper then !prevCased && isTitleAux true true cs
    else if c.isLower then prevCased && isTitleAux true true cs
    else isTitleAux false cased cs

/-- Python `s.istitle()` (ASCII model). -/
def pyIsTitle (s : String) : Bool := isTitleAux false false s.data

/-- Python `s.isalpha()` (ASCII model): nonempty and all alphabetic. -/
def pyIsAlpha (s : String) : Bool := !s.data.isEmpty && s.data.all Char.isAlpha

/-- First-occurrence deduplication, modelling Python `list(set(...))`.
The iteration order of a Python set is unspecified; following section 4.2 of
the spec the cap is read as keeping at most 30 arbitrary survivors, and this
model fixes first-occurrence order. -/
def dedupAux (seen : List String) : List String → List String
  | [] => []
  | x :: xs => if x ∈ seen then dedupAux seen xs else x :: dedupAux (x :: seen) xs

/-- Embedding of `QuizGenerator.extract_key_concepts` (lines 156-173 of
src/mcq_generator.py): strip punctuation from each whitespace-separated word,
keep title-cased words longer than 3 characters and purely alphabetic words
longer than 7 characters, deduplicate, keep at most 30. -/
def extract_key_concepts (text : String) : List String :=
  let words := pyWords text
  let key_terms := (words.map stripTermPunct).filter (fun w =>
    (pyIsTitle w && 3 < w.length) || (7 < w.length && pyIsAlpha w))
  (dedupAux [] key_terms).take 30

/-- A generated question record, mirroring the dictionaries built on lines
252-258 and 271-292 of src/mcq_generator.py.  Multiple-choice questions carry
a `topic` and no `qtype`; true/false questions carry `qtype = some "true_false"`
and no topic, matching the keys present in each Python dictionary. -/
structure Question where
  question : String
  options : List String
  correct_answer : String
  explanation : String
  topic : Option String := none
  qtype : Option String := none
deriving Repr, DecidableEq, Inhabited

/-- Oracle giving the outcome of every pseudo-random choice of one call to
`generate_multiple_choice_questions`, indexed by the loop iteration:
`pickTerm` the index chosen by `random.choice(available_terms)` (used modulo
the list length), `pickPattern` the index chosen by
`random.choice(question_patterns)` (used modulo 8), `sample3` the outcome of
`random.sample(other_sentences, 3)`, and `shuffle` the outcome of
`random.shuffle(options)`. -/
structure Rand where
  pickTerm : Nat → List String → Nat
  pickPattern : Nat → Nat
  sample3 : Nat → List String → List String
  shuffle : Nat → List String → List String

/-- The outcomes a real random source can produce: `random.sample(l, 3)` picks
3 distinct positions of `l` (a length-3 subpermutation of `l`), and
`random.shuffle` permutes its argument. -/
def Rand.Valid (r : Rand) : Prop :=
  (∀ i l, 3 ≤ l.length → (r.sample3 i l).length = 3 ∧ (r.sample3 i l).Subperm l) ∧
  (∀ i l, (r.shuffle i l).Perm l)

/-- The eight question templates of lines 185-194 of src/mcq_generator.py,
already instantiated at the term (`random.choice(question_patterns).format(term)`). -/
def question_patterns (term : String) : List String :=
  ["What is the main concept of " ++ term ++ "?",
   "According to the document, what is " ++ term ++ "?",
   "How is " ++ term ++ " defined in the text?",
   "What are the key characteristics of " ++ term ++ "?",
   "What does the document say about " ++ term ++ "?",
   "Which statement best describes " ++ term ++ "?",
   "What is the primary function of " ++ term ++ "?",
   "According to the content, " ++ term ++ " is:"]

/-- The generic correct-answer filler of line 227 of src/mcq_generator.py. -/
def fillerFor (term : String) : String :=
  "A concept related to " ++ term ++ " as described in the document"

/-- The three generic distractors of lines 239-243 of src/mcq_generator.py. -/
def genericsFor (term : String) : List String :=
  ["An unrelated concept not mentioned in the document",
   "A different topic entirely separate from " ++ term,
   "Information not covered in this document"]

/-- The distractor truncation of line 246 of src/mcq_generator.py:
`d[:100] + "..." if len(d) > 100 else d`. -/
def truncate100 (d : String) : String :=
  if 100 < d.length then String.mk (d.data.take 100 ++ ['.', '.', '.']) else d

/-- The sentences used by `generate_multiple_choice_questions` (line 177):
pieces of the text split on periods, stripped, of length above 30. -/
def sentencesMCQ (text : String) : List String :=
  ((pySplit text '.').map pyStrip).filter (fun s => 30 < s.length)

/-- The context sentences for a term (line 218 of src/mcq_generator.py):
sentences containing the term, case-insensitively. -/
def contextOf (sentences : List String) (term : String) : List String :=
  sentences.filter (fun s => strContains (pyLower s) (pyLower term))

/-- The distractor pool for a term (line 232 of src/mcq_generator.py):
sentences not containing the term, case-insensitively. -/
def othersOf (sentences : List String) (term : String) : List String :=
  sentences.filter (fun s => !strContains (pyLower s) (pyLower term))

/-- The loop of lines 205-258 of src/mcq_generator.py.  `fuel` counts the
remaining iterations of `range(min(num_questions, len(key_terms)))`, `i` is
the iteration index feeding the oracle, `used` is the `used_terms` set.
On line 224 the source file is mangled (`context_sentences,[object Object],`,
an HTML-rendering artifact): modelled from the spec, which reads it as the
first matching context sentence, i.e. `context_sentences[0]`. -/
def mcqLoop (r : Rand) (sentences key_terms : List String) :
    Nat → Nat → List String → List Question
  | 0, _, _ => []
  | fuel + 1, i, used =>
    let available := key_terms.filter (fun t => !(t ∈ used : Bool))
    if available.isEmpty then []
    else
      let term := available.getD (r.pickTerm i available % available.length) ""
      let used' := term :: used
      let question_text :=
        (question_patterns term).getD (r.pickPattern i % (question_patterns term).length) ""
      match contextOf sentences term with
      | [] => mcqLoop r sentences key_terms fuel (i + 1) used'
      | correct_context :: _ =>
        let correct_answer :=
          if correct_context.length < 100 then correct_context else fillerFor term
        let other_sentences := othersOf sentences term
        let distractors :=
          if 3 ≤ other_sentences.length then r.sample3 i other_sentences
          else genericsFor term
        let distractors := distractors.map truncate100
        let options := r.shuffle i (correct_answer :: distractors.take 3)
        { question := question_text
          options := options
          correct_answer := correct_answer
          explanation := "This information relates to " ++ term ++
            " as mentioned in the document: " ++ String.mk (correct_context.data.take 150) ++ "..."
          topic := some term } :: mcqLoop r sentences key_terms fuel (i + 1) used'

/-- Embedding of `QuizGenerator.generate_multiple_choice_questions`
(lines 175-260 of src/mcq_generator.py). -/
def generate_multiple_choice_questions (r : Rand) (text : String) (num_questions : Nat) :
    List Question :=
  let sentences := sentencesMCQ text
  if sentences.length < 3 then []
  else
    let key_terms := extract_key_concepts text
    if key_terms.isEmpty then []
    else mcqLoop r sentences key_terms (min num_questions key_terms.length) 0 []

/-- Python `s.replace(pat, rep)` on character lists (all occurrences,
leftmost, non-overlapping; scanning resumes after the matched pattern).
The counter holds the number of characters of a matched pattern still to be
skipped over. -/
def replAux (pat rep : List Char) : Nat → List Char → List Char
  | _, [] => []
  | k + 1, _ :: cs => replAux pat rep k cs
  | 0, c :: cs =>
    if isPrefOf pat (c :: cs) && !pat.isEmpty then
      rep ++ replAux pat rep (pat.length - 1) cs
    else c :: replAux pat rep 0 cs

/-- Python `s.replace(pat, rep)`. -/
def pyReplace (s pat rep : String) : String := String.mk (replAux pat.data rep.data 0 s.data)

/-- The sentences used by `generate_true_false_questions` (line 264):
pieces of the text split on periods, stripped, of length above 20. -/
def sentencesTF (text : String) : List String :=
  ((pySplit text '.').map pyStrip).filter (fun s => 20 < s.length)

/-- The modified sentence of line 284 of src/mcq_generator.py:
`sentence.replace("is", "is not").replace("are", "are not")`. -/
def negateSentence (sentence : String) : String :=
  pyReplace (pyReplace sentence "is" "is not") "are" "are not"

/-- The True item of lines 271-277 of src/mcq_generator.py, quoting the
sentence verbatim. -/
def tfTrueItem (sentence : String) : Question :=
  { question := "True or False: " ++ sentence
    options := ["True", "False"]
    correct_answer := "True"
    explanation := "This statement is directly from the document."
    qtype := some "true_false" }

/-- The False item of lines 282-291 of src/mcq_generator.py, built from the
same sentence by the two substring replacements. -/
def tfFalseItem (sentence : String) : Question :=
  { question := "True or False: " ++ negateSentence sentence
    options := ["True", "False"]
    correct_answer := "False"
    explanation := "This is a modified version of information in the document."
    qtype := some "true_false" }

/-- The loop of lines 267-292 of src/mcq_generator.py.  `fuel` counts the
remaining iterations of `range(min(num_questions, len(sentences)))`, `i` is
the current sentence index. -/
def tfLoop (sentences : List String) : Nat → Nat → List Question
  | 0, _ => []
  | fuel + 1, i =>
    let sentence := sentences.getD i ""
    if i + 1 < sentences.length then
      tfTrueItem sentence :: tfFalseItem sentence :: tfLoop sentences fuel (i + 1)
    else tfTrueItem sentence :: tfLoop sentences fuel (i + 1)

/-- Embedding of `QuizGenerator.generate_true_false_questions`
(lines 262-294 of src/mcq_generator.py). -/
def generate_true_false_questions (text : String) (num_questions : Nat) : List Question :=
  let sentences := sentencesTF text
  (tfLoop sentences (min num_questions sentences.length) 0).take num_questions

/-- The per-question scoring of lines 425-431 of src/mcq_generator.py:
an unanswered index reads as the sentinel string and a match scores one point.
`answers` is the `user_answers` dictionary, modelled as a partial map. -/
def scoreAux (answers : Nat → Option String) : Nat → List Question → Nat
  | _, [] => 0
  | i, q :: qs =>
    (if (answers i).getD "Not answered" = q.correct_answer then 1 else 0) +
      scoreAux answers (i + 1) qs

/-- The aggregate score of `display_quiz_results` (lines 419-431). -/
def quiz_score (questions : List Question) (answers : Nat → Option String) : Nat :=
  scoreAux answers 0 questions

/-- The percentage of line 443 of src/mcq_generator.py:
`(score / total_questions) * 100 if total_questions > 0 else 0`,
modelled over the rationals. -/
def quiz_percentage (questions : List Question) (answers : Nat → Option String) : ℚ :=
  if 0 < questions.length then
    ((quiz_score questions answers : ℚ) / (questions.length : ℚ)) * 100
  else 0

/-- Modelled from the spec: the true/false stream described by claim C2 and
section 4.4 of the spec — for each qualifying-sentence position i, first a
True item whose prompt quotes the sentence verbatim, then, whenever a next
sentence exists, a False item obtained by the substring replacements applied
to that same sentence.  Compared against `generate_true_false_questions`. -/
def tfSpecSeq (sentences : List String) : List Question :=
  (List.range sentences.length).flatMap (fun i =>
    tfTrueItem (sentences.getD i "") ::
      (if i + 1 < sentences.length then [tfFalseItem (sentences.getD i "")] else []))

/-! ### Concrete instances used to witness the theorems -/

/-- A concrete random oracle: always pick index 0, sample the first three
pool elements, leave the option order unchanged. -/
def idRand : Rand :=
  { pickTerm := fun _ _ => 0
    pickPattern := fun _ => 0
    sample3 := fun _ l => l.take 3
    shuffle := fun _ l => l }

/-- A small document with three qualifying sentences. -/
def wText : String :=
  "Alphabet soup is a wonderful dinner for champions. Bananas are delicious when ripe and sweet today. Computers are helpful machines for modern offices."

/-- A document with five sentences of trimmed length above 20. -/
def tfText : String :=
  "Alphabet soup is a wonderful dinner. Bananas are delicious when ripe. Computers are helpful machines. Dolphins are clever swimming mammals. Elephants are remarkably strong animals."

/-- A document whose last sentence is too short to qualify, so the key term
occurring only there has no context sentence. -/
def strictText : String :=
  "Alphabet soup is a wonderful dinner for champions. Bananas are delicious when ripe and sweet today. Computers are helpful machines for modern offices. Zzyzxwordy helps."

/-- An oracle that first picks the contextless term `Zzyzxwordy` (index 7 of
the extracted key terms of `strictText`) and then the first available term. -/
def strictRand : Rand :=
  { pickTerm := fun i _ => if i = 0 then 7 else 0
    pickPattern := fun _ => 0
    sample3 := fun _ l => l.take 3
    shuffle := fun _ l => l }

/-- A document whose first sentence is exactly 100 characters long and starts
with a 51-character term, so the correct answer falls back to the generic
filler, whose length is 50 plus the term length, here 101 characters. -/
def c6Text : String :=
  "wwwwwwwwwwwwwwwwwwwwwwwwwwwwwwwwwwwwwwwwwwwwwwwwwww xxxxxxxxxxxxxxxxxxxxxxxxxxxxxxxxxxxxxxxxxxxxxxxx. Bananas are delicious when ripe today. Computers are helpful machines for offices."

/-- A document with four qualifying sentences, so the term of the first one
has three non-mentioning sentences to sample distractors from. -/
def c10Text : String :=
  "Alphabet soup is a wonderful dinner for champions. Bananas are delicious when ripe and sweet today. Computers are helpful machines for modern offices. Dolphins are clever swimming mammals of the sea."

/-- No two adjacent whitespace characters occur in the list. -/
def noWsWs : List Char → Bool
  | c :: c' :: cs => !(isWsChar c && isWsChar c') && noWsWs (c' :: cs)
  | _ => true

/-- Every whitespace character in the list is a plain space. -/
def spacesOnly (l : List Char) : Bool := l.all (fun c => !isWsChar c || c == ' ')

/-- The first character, when present, is not whitespace. -/
def headNotWsB : List Char → Bool
  | [] => true
  | c :: _ => !isWsChar c

/-- A one-question quiz used to witness the scorer theorems. -/
def c3Qs : List Question :=
  [{ question := "Is water wet?", options := ["True", "False"],
     correct_answer := "True", explanation := "It is." }]

/-! ### Helper lemmas -/

theorem idRand_valid : idRand.Valid := by
  constructor
  · intro i l h3
    refine ⟨?_, (List.take_sublist 3 l).subperm⟩
    simpa [idRand] using Nat.min_eq_left h3
  · intro i l
    exact List.Perm.refl l

theorem getD_mem {α : Type} : ∀ (l : List α) (n : Nat) (d : α), n < l.length → l.getD n d ∈ l
  | a :: l, 0, _, _ => List.mem_cons_self a l
  | a :: l, n + 1, d, h => by
    rw [List.getD_cons_succ]
    exact List.mem_cons_of_mem a (getD_mem l n d (by simpa using h))

theorem headI_mem_of_ne_nil {α : Type} [Inhabited α] : ∀ (l : List α), l ≠ [] → l.headI ∈ l
  | [], h => absurd rfl h
  | a :: l, _ => List.mem_cons_self a l

theorem mcqLoop_length_le (r : Rand) (sents terms : List String) :
    ∀ fuel i used, (mcqLoop r sents terms fuel i used).length ≤ fuel := by
  intro fuel
  induction fuel with
  | zero => intro i used; simp [mcqLoop]
  | succ fuel ih =>
    intro i used
    rw [mcqLoop]
    split
    · simp
    · dsimp only
      split
      · exact le_trans (ih _ _) (Nat.le_succ _)
      · simpa using ih _ _

/-- Claim C4: with fewer than 3 qualifying sentences the generator returns
the empty list, for every oracle and every requested count. -/
theorem c4_too_short (r : Rand) (text : String) (n : Nat)
    (h : (sentencesMCQ text).length < 3) :
    generate_multiple_choice_questions r text n = [] := by
  unfold generate_multiple_choice_questions
  simp [h]

theorem c4_witness :
    ((sentencesMCQ "Too short. Tiny. Hi.").length < 3) ∧
      generate_multiple_choice_questions
        { pickTerm := fun _ _ => 0, pickPattern := fun _ => 0,
          sample3 := fun _ l => l.take 3, shuffle := fun _ l => l }
        "Too short. Tiny. Hi." 5 = [] :=
  ⟨by decide, c4_too_short _ _ 5 (by decide)⟩

theorem mcqLoop_shape (r : Rand) (sents terms : List String) :
    ∀ fuel i used, ∀ q ∈ mcqLoop r sents terms fuel i used,
      ∃ j term, term ∈ terms ∧
        q.topic = some term ∧
        contextOf sents term ≠ [] ∧
        q.correct_answer =
          (if (contextOf sents term).headI.length < 100 then (contextOf sents term).headI
           else fillerFor term) ∧
        q.options = r.shuffle j (q.correct_answer ::
          ((if 3 ≤ (othersOf sents term).length then r.sample3 j (othersOf sents term)
            else genericsFor term).map truncate100).take 3) := by
  intro fuel
  induction fuel with
  | zero => intro i used q hq; simp [mcqLoop] at hq
  | succ fuel ih =>
    intro i used q hq
    rw [mcqLoop] at hq
    split at hq
    · simp at hq
    · next hav =>
      dsimp only at hq
      split at hq
      · exact ih _ _ q hq
      · next c rest hctx =>
        rcases List.mem_cons.mp hq with rfl | hq'
        · have hlen : 0 < (List.filter (fun t => !decide (t ∈ used)) terms).length := by
            cases h' : List.filter (fun t => !decide (t ∈ used)) terms with
            | nil => rw [h'] at hav; simp at hav
            | cons a l => exact Nat.succ_pos _
          refine ⟨i, _, ?_, rfl, ?_, ?_, ?_⟩
          · exact (List.mem_filter.mp (getD_mem _ _ _ (Nat.mod_lt _ hlen))).1
          · rw [hctx]; exact List.cons_ne_nil c rest
          · simp only [hctx, List.headI]
          · simp only [hctx, List.headI]
        · exact ih _ _ q hq'

theorem mem_gen_mcq {r : Rand} {text : String} {n : Nat} {q : Question}
    (hq : q ∈ generate_multiple_choice_questions r text n) :
    q ∈ mcqLoop r (sentencesMCQ text) (extract_key_concepts text)
        (min n (extract_key_concepts text).length) 0 [] := by
  unfold generate_multiple_choice_questions at hq
  dsimp only at hq
  split at hq
  · simp at hq
  · split at hq
    · simp at hq
    · exact hq

theorem tfLoop_options (sentences : List String) :
    ∀ fuel i, ∀ q ∈ tfLoop sentences fuel i,
      q.options = ["True", "False"] ∧
        (q.correct_answer = "True" ∨ q.correct_answer = "False") := by
  intro fuel
  induction fuel with
  | zero => intro i q hq; simp [tfLoop] at hq
  | succ fuel ih =>
    intro i q hq
    rw [tfLoop] at hq
    split at hq
    · rcases List.mem_cons.mp hq with rfl | hq'
      · exact ⟨rfl, Or.inl rfl⟩
      · rcases List.mem_cons.mp hq' with rfl | hq''
        · exact ⟨rfl, Or.inr rfl⟩
        · exact ih _ q hq''
    · rcases List.mem_cons.mp hq with rfl | hq'
      · exact ⟨rfl, Or.inl rfl⟩
      · exact ih _ q hq'

/-- Claim C1: for every input text, requested count, and outcome of the random
choices, every generated question has its correct answer among its options,
and the options list has length 4 (multiple choice) or 2 (true/false). -/
theorem c1_options_invariant (r : Rand) (hr : r.Valid) (text : String) (n m : Nat) :
    (∀ q ∈ generate_multiple_choice_questions r text n,
      q.correct_answer ∈ q.options ∧ q.options.length = 4) ∧
    (∀ q ∈ generate_true_false_questions text m,
      q.correct_answer ∈ q.options ∧ q.options.length = 2) := by
  constructor
  · intro q hq
    obtain ⟨j, term, -, -, -, -, hopts⟩ := mcqLoop_shape r _ _ _ _ _ q (mem_gen_mcq hq)
    have hperm := hr.2 j (q.correct_answer ::
      ((if 3 ≤ (othersOf (sentencesMCQ text) term).length
        then r.sample3 j (othersOf (sentencesMCQ text) term)
        else genericsFor term).map truncate100).take 3)
    rw [hopts]
    constructor
    · exact hperm.mem_iff.mpr (List.mem_cons_self _ _)
    · rw [hperm.length_eq]
      have hd3 : (((if 3 ≤ (othersOf (sentencesMCQ text) term).length
          then r.sample3 j (othersOf (sentencesMCQ text) term)
          else genericsFor term).map truncate100).take 3).length = 3 := by
        split
        · next h3 =>
          rw [List.length_take, List.length_map, (hr.1 j _ h3).1]
          simp
        · rw [List.length_take, List.length_map]
          rfl
      simp [hd3]
  · intro q hq
    have hq' : q ∈ tfLoop (sentencesTF text) (min m (sentencesTF text).length) 0 :=
      (List.take_sublist _ _).subset hq
    obtain ⟨hopts, hca⟩ := tfLoop_options _ _ _ q hq'
    rcases hca with h | h <;> rw [hopts, h] <;> exact ⟨by simp, rfl⟩

theorem c1_witness :
    idRand.Valid ∧
      ((generate_multiple_choice_questions idRand wText 5).headI.correct_answer ∈
          (generate_multiple_choice_questions idRand wText 5).headI.options ∧
        (generate_multiple_choice_questions idRand wText 5).headI.options.length = 4) ∧
      ((generate_true_false_questions wText 4).headI.correct_answer ∈
          (generate_true_false_questions wText 4).headI.options ∧
        (generate_true_false_questions wText 4).headI.options.length = 2) :=
  ⟨idRand_valid,
    (c1_options_invariant idRand idRand_valid wText 5 4).1 _ (by decide),
    (c1_options_invariant idRand idRand_valid wText 5 4).2 _ (by decide)⟩

theorem mcqLoop_topics (r : Rand) (sents terms : List String) :
    ∀ fuel i used,
      (∀ q ∈ mcqLoop r sents terms fuel i used, ∀ t, q.topic = some t → t ∉ used) ∧
        ((mcqLoop r sents terms fuel i used).map Question.topic).Nodup := by
  intro fuel
  induction fuel with
  | zero =>
    intro i used
    refine ⟨fun q hq => ?_, by simp [mcqLoop]⟩
    simp [mcqLoop] at hq
  | succ fuel ih =>
    intro i used
    rw [mcqLoop]
    split
    · refine ⟨fun q hq => ?_, by simp⟩
      simp at hq
    · next hav =>
      dsimp only
      split
      · refine ⟨fun q hq t ht hin => ?_, (ih _ _).2⟩
        exact (ih _ _).1 q hq t ht (List.mem_cons_of_mem _ hin)
      · next c rest hctx =>
        have hterm_not_used :
            (List.filter (fun t => !decide (t ∈ used)) terms).getD
              (r.pickTerm i (List.filter (fun t => !decide (t ∈ used)) terms) %
                (List.filter (fun t => !decide (t ∈ used)) terms).length) "" ∉ used := by
          have hlen : 0 < (List.filter (fun t => !decide (t ∈ used)) terms).length := by
            cases h' : List.filter (fun t => !decide (t ∈ used)) terms with
            | nil => rw [h'] at hav; simp at hav
            | cons a l => exact Nat.succ_pos _
          have hmem := getD_mem (List.filter (fun t => !decide (t ∈ used)) terms)
            (r.pickTerm i (List.filter (fun t => !decide (t ∈ used)) terms) %
              (List.filter (fun t => !decide (t ∈ used)) terms).length) "" (Nat.mod_lt _ hlen)
          have := (List.mem_filter.mp hmem).2
          simpa using this
        constructor
        · intro q hq t ht
          rcases List.mem_cons.mp hq with rfl | hq'
          · have : some _ = some t := ht
            rw [← Option.some.inj this]
            exact hterm_not_used
          · intro hin
            exact (ih _ _).1 q hq' t ht (List.mem_cons_of_mem _ hin)
        · rw [List.map_cons]
          refine List.nodup_cons.mpr ⟨?_, (ih _ _).2⟩
          intro hmem
          obtain ⟨q', hq', htq⟩ := List.mem_map.mp hmem
          exact (ih _ _).1 q' hq' _ htq (List.mem_cons_self _ _)

/-- Claim C9: the questions returned by one call have pairwise distinct topic
fields, for every text, count, and outcome of the random choices. -/
theorem c9_distinct_topics (r : Rand) (text : String) (n : Nat) :
    ((generate_multiple_choice_questions r text n).map Question.topic).Nodup := by
  unfold generate_multiple_choice_questions
  dsimp only
  split
  · simp
  · split
    · simp
    · exact (mcqLoop_topics r _ _ _ 0 []).2

/-- Claim C7: the number of returned questions never exceeds
min(requested, number of extracted key terms), and a term without context is
skipped without being retried, so the count can fall strictly short: on
`strictText` two questions are requested, eight key terms exist, yet only one
question comes back. -/
theorem c7_at_most_min :
    (∀ (r : Rand) (text : String) (n : Nat),
      (generate_multiple_choice_questions r text n).length ≤
        min n (extract_key_concepts text).length) ∧
      (generate_multiple_choice_questions strictRand strictText 2).length <
        min 2 (extract_key_concepts strictText).length := by
  constructor
  · intro r text n
    unfold generate_multiple_choice_questions
    dsimp only
    split
    · simp
    · split
      · simp
      · exact mcqLoop_length_le r _ _ _ 0 []
  · decide

/-- Claim C5: every produced multiple-choice question is anchored at a term
that has at least one context sentence, and its correct answer is the first
matching context sentence when that sentence is shorter than 100 characters,
and the generic filler naming the term otherwise.  On line 224 the source is
mangled; the first-matching-sentence reading follows the spec (section 4.3). -/
theorem c5_correct_answer (r : Rand) (text : String) (n : Nat) (q : Question) (term : String)
    (hq : q ∈ generate_multiple_choice_questions r text n)
    (ht : q.topic = some term) :
    contextOf (sentencesMCQ text) term ≠ [] ∧
      q.correct_answer =
        (if (contextOf (sentencesMCQ text) term).headI.length < 100
         then (contextOf (sentencesMCQ text) term).headI
         else fillerFor term) := by
  obtain ⟨j, term', hmem, ht', hctx, hca, -⟩ := mcqLoop_shape r _ _ _ _ _ q (mem_gen_mcq hq)
  have hte : term' = term := Option.some.inj (ht'.symm.trans ht)
  rw [hte] at hctx hca
  exact ⟨hctx, hca⟩

theorem c5_witness :
    ((generate_multiple_choice_questions idRand wText 5).headI ∈
        generate_multiple_choice_questions idRand wText 5) ∧
      ((generate_multiple_choice_questions idRand wText 5).headI.topic = some "Alphabet") ∧
      (contextOf (sentencesMCQ wText) "Alphabet" ≠ [] ∧
        (generate_multiple_choice_questions idRand wText 5).headI.correct_answer =
          (if (contextOf (sentencesMCQ wText) "Alphabet").headI.length < 100
           then (contextOf (sentencesMCQ wText) "Alphabet").headI
           else fillerFor "Alphabet")) :=
  ⟨by decide, by decide,
    c5_correct_answer idRand wText 5 _ "Alphabet" (by decide) (by decide)⟩

/-- Claim C6 as stated is false: on `c6Text` the produced question's correct
answer is 101 characters long, is not truncated (it differs from its own
truncation), and sits untruncated in the options list. -/
theorem c6_counterexample :
    100 < (generate_multiple_choice_questions idRand c6Text 1).headI.correct_answer.length ∧
      (generate_multiple_choice_questions idRand c6Text 1).headI.correct_answer ∈
        (generate_multiple_choice_questions idRand c6Text 1).headI.options ∧
      (generate_multiple_choice_questions idRand c6Text 1).headI.correct_answer ≠
        truncate100
          (generate_multiple_choice_questions idRand c6Text 1).headI.correct_answer := by
  decide

/-- Claim C6 (amended): the three distractors are the 100-character
truncations of three sentences sampled without replacement from the sentences
not containing the term when at least three such sentences exist, and the
truncations of the three generic filler strings otherwise; the correct answer
is never truncated — it stays the raw context sentence or filler. -/
theorem c6_distractors (r : Rand) (hr : r.Valid) (text : String) (n : Nat)
    (q : Question) (term : String)
    (hq : q ∈ generate_multiple_choice_questions r text n)
    (ht : q.topic = some term) :
    ∃ D : List String,
      q.options.Perm (q.correct_answer :: D) ∧
      D.length = 3 ∧
      (∀ d ∈ D, ∃ d₀, d = truncate100 d₀ ∧
        (if 3 ≤ (othersOf (sentencesMCQ text) term).length
         then d₀ ∈ othersOf (sentencesMCQ text) term
         else d₀ ∈ genericsFor term)) ∧
      q.correct_answer =
        (if (contextOf (sentencesMCQ text) term).headI.length < 100
         then (contextOf (sentencesMCQ text) term).headI
         else fillerFor term) := by
  obtain ⟨j, term', hmem, ht', hctx, hca, hopts⟩ := mcqLoop_shape r _ _ _ _ _ q (mem_gen_mcq hq)
  have hte : term' = term := Option.some.inj (ht'.symm.trans ht)
  subst hte
  refine ⟨((if 3 ≤ (othersOf (sentencesMCQ text) term').length
      then r.sample3 j (othersOf (sentencesMCQ text) term')
      else genericsFor term').map truncate100).take 3, ?_, ?_, ?_, hca⟩
  · rw [hopts]; exact hr.2 j _
  · split
    · next h3 => rw [List.length_take, List.length_map, (hr.1 j _ h3).1]; simp
    · rw [List.length_take, List.length_map]; rfl
  · intro d hd
    have hd' := (List.take_sublist _ _).subset hd
    obtain ⟨d₀, hd₀, rfl⟩ := List.mem_map.mp hd'
    refine ⟨d₀, rfl, ?_⟩
    split
    · next h3 =>
      rw [if_pos h3] at hd₀
      exact (hr.1 j _ h3).2.subset hd₀
    · next h3 =>
      rw [if_neg h3] at hd₀
      exact hd₀

theorem c6_witness :
    idRand.Valid ∧
      ((generate_multiple_choice_questions idRand wText 5).headI ∈
        generate_multiple_choice_questions idRand wText 5) ∧
      ((generate_multiple_choice_questions idRand wText 5).headI.topic = some "Alphabet") ∧
      (∃ D : List String,
        ((generate_multiple_choice_questions idRand wText 5).headI.options).Perm
          ((generate_multiple_choice_questions idRand wText 5).headI.correct_answer :: D) ∧
        D.length = 3 ∧
        (∀ d ∈ D, ∃ d₀, d = truncate100 d₀ ∧
          (if 3 ≤ (othersOf (sentencesMCQ wText) "Alphabet").length
           then d₀ ∈ othersOf (sentencesMCQ wText) "Alphabet"
           else d₀ ∈ genericsFor "Alphabet")) ∧
        (generate_multiple_choice_questions idRand wText 5).headI.correct_answer =
          (if (contextOf (sentencesMCQ wText) "Alphabet").headI.length < 100
           then (contextOf (sentencesMCQ wText) "Alphabet").headI
           else fillerFor "Alphabet")) :=
  ⟨idRand_valid, by decide, by decide,
    c6_distractors idRand idRand_valid wText 5 _ "Alphabet" (by decide) (by decide)⟩

/-- Claim C10: when the correct answer is a context sentence shorter than 100
characters and at least three non-mentioning sentences exist, the correct
answer differs from every sentence of the distractor pool (before truncation)
and occurs exactly once among the options, so string-equality scoring is
unambiguous for such questions. -/
theorem c10_unambiguous (r : Rand) (hr : r.Valid) (text : String) (n : Nat)
    (q : Question) (term : String)
    (hq : q ∈ generate_multiple_choice_questions r text n)
    (ht : q.topic = some term)
    (hshort : (contextOf (sentencesMCQ text) term).headI.length < 100)
    (h3 : 3 ≤ (othersOf (sentencesMCQ text) term).length) :
    (∀ s ∈ othersOf (sentencesMCQ text) term, s ≠ q.correct_answer) ∧
      q.options.count q.correct_answer = 1 := by
  obtain ⟨j, term', hmem, ht', hctx, hca, hopts⟩ := mcqLoop_shape r _ _ _ _ _ q (mem_gen_mcq hq)
  have hte : term' = term := Option.some.inj (ht'.symm.trans ht)
  subst hte
  rw [if_pos hshort] at hca
  have hC_mem : (contextOf (sentencesMCQ text) term').headI ∈
      contextOf (sentencesMCQ text) term' := headI_mem_of_ne_nil _ hctx
  have hC_contains :
      strContains (pyLower (contextOf (sentencesMCQ text) term').headI) (pyLower term') = true :=
    (List.mem_filter.mp hC_mem).2
  have hdiff : ∀ s ∈ othersOf (sentencesMCQ text) term', s ≠ q.correct_answer := by
    intro s hs heq
    have hs' : (!strContains (pyLower s) (pyLower term')) = true :=
      (List.mem_filter.mp hs).2
    rw [heq, hca] at hs'
    rw [hC_contains] at hs'
    simp at hs'
  refine ⟨hdiff, ?_⟩
  rw [hopts, if_pos h3]
  rw [List.Perm.count_eq (hr.2 j _)]
  rw [List.count_cons_self]
  have hzero : (((r.sample3 j (othersOf (sentencesMCQ text) term')).map truncate100).take 3).count
      q.correct_answer = 0 := by
    rw [List.count_eq_zero]
    intro hmem'
    have hmem'' := (List.take_sublist _ _).subset hmem'
    obtain ⟨d₀, hd₀, hdeq⟩ := List.mem_map.mp hmem''
    have hd₀o : d₀ ∈ othersOf (sentencesMCQ text) term' := (hr.1 j _ h3).2.subset hd₀
    by_cases hlong : 100 < d₀.length
    · have hlen3 : (truncate100 d₀).length = 103 := by
        rw [truncate100, if_pos hlong]
        show (d₀.data.take 100 ++ ['.', '.', '.']).length = 103
        rw [List.length_append, List.length_take]
        have hdl : d₀.length = d₀.data.length := rfl
        simp only [List.length_cons, List.length_nil]
        omega
      have : q.correct_answer.length = 103 := by rw [← hdeq, hlen3]
      rw [hca] at this
      omega
    · have : truncate100 d₀ = d₀ := by rw [truncate100, if_neg hlong]
      rw [this] at hdeq
      exact hdiff d₀ hd₀o hdeq
  rw [hzero]

theorem c10_witness :
    idRand.Valid ∧
      ((generate_multiple_choice_questions idRand c10Text 5).headI ∈
        generate_multiple_choice_questions idRand c10Text 5) ∧
      ((generate_multiple_choice_questions idRand c10Text 5).headI.topic = some "Alphabet") ∧
      ((contextOf (sentencesMCQ c10Text) "Alphabet").headI.length < 100) ∧
      (3 ≤ (othersOf (sentencesMCQ c10Text) "Alphabet").length) ∧
      ((∀ s ∈ othersOf (sentencesMCQ c10Text) "Alphabet",
          s ≠ (generate_multiple_choice_questions idRand c10Text 5).headI.correct_answer) ∧
        ((generate_multiple_choice_questions idRand c10Text 5).headI.options).count
          (generate_multiple_choice_questions idRand c10Text 5).headI.correct_answer = 1) :=
  ⟨idRand_valid, by decide, by decide, by decide, by decide,
    c10_unambiguous idRand idRand_valid c10Text 5 _ "Alphabet"
      (by decide) (by decide) (by decide) (by decide)⟩

theorem tfLoop_prefix (sents : List String) :
    ∀ k k' i, k ≤ k' → ∃ t, tfLoop sents k' i = tfLoop sents k i ++ t := by
  intro k
  induction k with
  | zero => intro k' i _; exact ⟨tfLoop sents k' i, by simp [tfLoop]⟩
  | succ k ih =>
    intro k' i h
    obtain ⟨k'', rfl⟩ : ∃ k'', k' = k'' + 1 := ⟨k' - 1, by omega⟩
    obtain ⟨t, ht⟩ := ih k'' (i + 1) (by omega)
    refine ⟨t, ?_⟩
    rw [tfLoop]
    rw [tfLoop]
    by_cases hc : i + 1 < sents.length
    · simp only [if_pos hc, ht, List.cons_append]
    · simp only [if_neg hc, ht, List.cons_append]

theorem tfLoop_length_ge (sents : List String) :
    ∀ k i, k ≤ (tfLoop sents k i).length := by
  intro k
  induction k with
  | zero => intro i; simp
  | succ k ih =>
    intro i
    rw [tfLoop]
    split
    · have := ih (i + 1); simp only [List.length_cons]; omega
    · have := ih (i + 1); simp only [List.length_cons]; omega

theorem tfLoop_eq_chunks (sents : List String) :
    ∀ k i, tfLoop sents k i = (List.range' i k).flatMap (fun idx =>
      tfTrueItem (sents.getD idx "") ::
        (if idx + 1 < sents.length then [tfFalseItem (sents.getD idx "")] else [])) := by
  intro k
  induction k with
  | zero => intro i; simp [tfLoop]
  | succ k ih =>
    intro i
    rw [tfLoop, List.range'_succ, List.flatMap_cons, ih (i + 1)]
    by_cases hc : i + 1 < sents.length
    · simp [hc]
    · simp [hc]

theorem tfSpecSeq_eq_loop (sents : List String) :
    tfSpecSeq sents = tfLoop sents sents.length 0 := by
  rw [tfSpecSeq, tfLoop_eq_chunks, List.range_eq_range']

/-- Claim C2: the true/false generator emits, per qualifying-sentence
position, a True item quoting the sentence verbatim and, whenever a next
sentence exists, a False item derived from that same sentence by the
is/are replacements; the result is the first N items of this stream, and on
`tfText` (five qualifying sentences) a call with N = 4 returns exactly four
items alternating True, False, True, False. -/
theorem c2_true_false_stream :
    (∀ (text : String) (n : Nat),
      generate_true_false_questions text n = (tfSpecSeq (sentencesTF text)).take n) ∧
      ((sentencesTF tfText).length = 5 ∧
        (generate_true_false_questions tfText 4).length = 4 ∧
        (generate_true_false_questions tfText 4).map Question.correct_answer =
          ["True", "False", "True", "False"] ∧
        (generate_true_false_questions tfText 4).map Question.question =
          ["True or False: " ++ (sentencesTF tfText).getD 0 "",
           "True or False: " ++ negateSentence ((sentencesTF tfText).getD 0 ""),
           "True or False: " ++ (sentencesTF tfText).getD 1 "",
           "True or False: " ++ negateSentence ((sentencesTF tfText).getD 1 "")]) := by
  constructor
  · intro text n
    unfold generate_true_false_questions
    rw [tfSpecSeq_eq_loop]
    show List.take n (tfLoop (sentencesTF text) (min n (sentencesTF text).length) 0) =
      List.take n (tfLoop (sentencesTF text) (sentencesTF text).length 0)
    rcases Nat.le_total n (sentencesTF text).length with h | h
    · rw [Nat.min_eq_left h]
      obtain ⟨t, ht⟩ := tfLoop_prefix (sentencesTF text) n (sentencesTF text).length 0 h
      rw [ht, List.take_append_of_le_length (tfLoop_length_ge _ n 0)]
    · rw [Nat.min_eq_right h]
  · exact ⟨by decide, by decide, by decide, by decide⟩

theorem scoreAux_all_correct (answers : Nat → Option String) :
    ∀ (qs : List Question) (i : Nat),
      (∀ j, j < qs.length → answers (i + j) = some ((qs.getD j default).correct_answer)) →
      scoreAux answers i qs = qs.length
  | [], _, _ => rfl
  | q :: qs, i, h => by
    have h0 : answers i = some q.correct_answer := by
      have := h 0 (Nat.succ_pos _)
      simpa using this
    have hrec : scoreAux answers (i + 1) qs = qs.length :=
      scoreAux_all_correct answers qs (i + 1) (fun j hj => by
        have := h (j + 1) (Nat.succ_lt_succ hj)
        have harith : i + (j + 1) = i + 1 + j := by omega
        rw [harith] at this
        simpa using this)
    rw [scoreAux, h0]
    simp [hrec, Nat.add_comm]

theorem scoreAux_none (qs : List Question) :
    ∀ i, (∀ q ∈ qs, q.correct_answer ≠ "Not answered") →
      scoreAux (fun _ => none) i qs = 0 := by
  induction qs with
  | nil => intro i _; rfl
  | cons q qs ih =>
    intro i h
    have hq : q.correct_answer ≠ "Not answered" := h q (List.mem_cons_self _ _)
    rw [scoreAux]
    simp only [Option.getD_none]
    rw [if_neg (fun e => hq e.symm)]
    simpa using ih (i + 1) (fun q' hq' => h q' (List.mem_cons_of_mem _ hq'))

/-- Claim C3 as stated is false: with an empty answer mapping over a
non-empty question list the percentage need not be 0 — an unanswered index
reads as the sentinel "Not answered", which counts as correct for a question
whose correct answer is that very string, giving 100 instead. -/
theorem c3_counterexample :
    quiz_percentage
        [{ question := "q", options := ["Not answered", "other"],
           correct_answer := "Not answered", explanation := "e" }]
        (fun _ => none) = 100 ∧
      quiz_percentage
          [{ question := "q", options := ["Not answered", "other"],
             correct_answer := "Not answered", explanation := "e" }]
          (fun _ => none) ≠ 0 := by
  constructor
  · rw [quiz_percentage]
    norm_num [quiz_score, scoreAux]
  · rw [quiz_percentage]
    norm_num [quiz_score, scoreAux]

/-- Claim C3 (amended): the aggregate score counts the questions whose
submitted answer equals the correct answer; for a non-empty question list with
every answer correct the percentage is 100; for an empty answer mapping over a
non-empty question list whose correct answers never equal the sentinel string
"Not answered" the percentage is 0; and for an empty question list the
percentage is 0 with no division by zero. -/
theorem c3_scorer (qs : List Question) (answers : Nat → Option String) :
    (qs ≠ [] →
      (∀ j, j < qs.length → answers j = some ((qs.getD j default).correct_answer)) →
      quiz_percentage qs answers = 100) ∧
    (qs ≠ [] → (∀ q ∈ qs, q.correct_answer ≠ "Not answered") →
      quiz_percentage qs (fun _ => none) = 0) ∧
    quiz_percentage [] answers = 0 := by
  refine ⟨?_, ?_, by simp [quiz_percentage]⟩
  · intro hne hall
    have hlen : 0 < qs.length := List.length_pos.mpr hne
    have hs : quiz_score qs answers = qs.length :=
      scoreAux_all_correct answers qs 0 (fun j hj => by simpa using hall j hj)
    rw [quiz_percentage, if_pos hlen, hs]
    have hnz : (qs.length : ℚ) ≠ 0 := Nat.cast_ne_zero.mpr (Nat.pos_iff_ne_zero.mp hlen)
    rw [div_self hnz, one_mul]
  · intro hne hnone
    have hs : quiz_score qs (fun _ => none) = 0 := scoreAux_none qs 0 hnone
    rw [quiz_percentage, if_pos (List.length_pos.mpr hne), hs]
    simp

theorem c3_witness :
    quiz_percentage c3Qs (fun _ => some "True") = 100 ∧
      quiz_percentage c3Qs (fun _ => none) = 0 ∧
      quiz_percentage [] (fun _ => some "True") = 0 :=
  ⟨(c3_scorer c3Qs (fun _ => some "True")).1 (by decide)
      (fun j hj => by
        have : j = 0 := by simpa [c3Qs] using hj
        subst this
        rfl),
    (c3_scorer c3Qs (fun _ => none)).2.1 (by decide) (by decide),
    (c3_scorer [] (fun _ => some "True")).2.2⟩

theorem noWsWs_tail {a : Char} {l : List Char} (h : noWsWs (a :: l) = true) :
    noWsWs l = true := by
  cases l with
  | nil => rfl
  | cons b l' => exact (Bool.and_eq_true_iff.mp h).2

theorem noWsWs_cons {c : Char} {l : List Char} (h1 : noWsWs l = true)
    (h2 : isWsChar c = false ∨ headNotWsB l = true) : noWsWs (c :: l) = true := by
  cases l with
  | nil => rfl
  | cons b l' =>
    rw [noWsWs]
    refine Bool.and_eq_true_iff.mpr ⟨?_, h1⟩
    rcases h2 with h | h
    · simp [h]
    · have hb : isWsChar b = false := by simpa [headNotWsB] using h
      simp [hb]

theorem noWsWs_append_left : ∀ {l t : List Char}, noWsWs (l ++ t) = true → noWsWs l = true
  | [], _, _ => rfl
  | [_], _, _ => rfl
  | a :: b :: l, t, h => by
    rw [List.cons_append] at h
    have hab : (!(isWsChar a && isWsChar b)) = true := by
      rw [List.cons_append] at h
      exact (Bool.and_eq_true_iff.mp h).1
    have htl : noWsWs ((b :: l) ++ t) = true := by
      rw [List.cons_append] at h ⊢
      exact (Bool.and_eq_true_iff.mp h).2
    rw [noWsWs]
    exact Bool.and_eq_true_iff.mpr ⟨hab, noWsWs_append_left htl⟩

theorem noWsWs_append_right : ∀ {t l : List Char}, noWsWs (t ++ l) = true → noWsWs l = true
  | [], _, h => h
  | _ :: t, l, h => by
    rw [List.cons_append] at h
    exact noWsWs_append_right (noWsWs_tail h)

theorem collapseWsAux_mem : ∀ (l : List Char) (b : Bool) (c : Char),
    c ∈ collapseWsAux b l → c = ' ' ∨ c ∈ l := by
  intro l
  induction l with
  | nil => intro b c h; simp [collapseWsAux] at h
  | cons a l ih =>
    intro b c h
    rw [collapseWsAux] at h
    cases hw : isWsChar a with
    | false =>
      rw [hw] at h
      simp only [Bool.false_eq_true, if_false, List.mem_cons] at h
      rcases h with rfl | h'
      · exact Or.inr (List.mem_cons_self _ _)
      · rcases ih false c h' with h'' | h''
        · exact Or.inl h''
        · exact Or.inr (List.mem_cons_of_mem _ h'')
    | true =>
      rw [hw] at h
      simp only [if_true] at h
      cases b with
      | true =>
        simp only [if_true] at h
        rcases ih true c h with h'' | h''
        · exact Or.inl h''
        · exact Or.inr (List.mem_cons_of_mem _ h'')
      | false =>
        simp only [Bool.false_eq_true, if_false, List.mem_cons] at h
        rcases h with rfl | h'
        · exact Or.inl rfl
        · rcases ih true c h' with h'' | h''
          · exact Or.inl h''
          · exact Or.inr (List.mem_cons_of_mem _ h'')

theorem collapseWsAux_step_ws {a : Char} (l : List Char) (hw : isWsChar a = true) :
    collapseWsAux true (a :: l) = collapseWsAux true l ∧
      collapseWsAux false (a :: l) = ' ' :: collapseWsAux true l := by
  constructor <;> (rw [collapseWsAux]; simp [hw])

theorem collapseWsAux_step_nws {a : Char} (l : List Char) (b : Bool) (hw : isWsChar a = false) :
    collapseWsAux b (a :: l) = a :: collapseWsAux false l := by
  rw [collapseWsAux]; simp [hw]

theorem collapseWsAux_wsOk : ∀ l : List Char,
    (noWsWs (collapseWsAux true l) = true ∧ headNotWsB (collapseWsAux true l) = true) ∧
      noWsWs (collapseWsAux false l) = true := by
  intro l
  induction l with
  | nil => exact ⟨⟨rfl, rfl⟩, rfl⟩
  | cons a l ih =>
    cases hw : isWsChar a with
    | true =>
      obtain ⟨e1, e2⟩ := collapseWsAux_step_ws l hw
      refine ⟨⟨by rw [e1]; exact ih.1.1, by rw [e1]; exact ih.1.2⟩, ?_⟩
      rw [e2]
      exact noWsWs_cons ih.1.1 (Or.inr ih.1.2)
    | false =>
      have e1 := collapseWsAux_step_nws l true hw
      have e2 := collapseWsAux_step_nws l false hw
      refine ⟨⟨?_, ?_⟩, ?_⟩
      · rw [e1]; exact noWsWs_cons ih.2 (Or.inl hw)
      · rw [e1, headNotWsB, hw]; rfl
      · rw [e2]; exact noWsWs_cons ih.2 (Or.inl hw)

theorem collapseWsAux_spaces : ∀ (l : List Char) (b : Bool),
    spacesOnly (collapseWsAux b l) = true := by
  intro l
  induction l with
  | nil => intro b; rfl
  | cons a l ih =>
    intro b
    cases hw : isWsChar a with
    | true =>
      obtain ⟨e1, e2⟩ := collapseWsAux_step_ws l hw
      cases b with
      | true => rw [e1]; exact ih true
      | false =>
        rw [e2, spacesOnly, List.all_cons]
        refine Bool.and_eq_true_iff.mpr ⟨by decide, ?_⟩
        exact ih true
    | false =>
      rw [collapseWsAux_step_nws l b hw, spacesOnly, List.all_cons]
      refine Bool.and_eq_true_iff.mpr ⟨by simp [hw], ih false⟩

theorem collapse_fix : ∀ l : List Char, noWsWs l = true → spacesOnly l = true →
    collapseWsAux false l = l ∧ (headNotWsB l = true → collapseWsAux true l = l) := by
  intro l
  induction l with
  | nil => exact fun _ _ => ⟨rfl, fun _ => rfl⟩
  | cons a l ih =>
    intro hno hsp
    have hsp' := Bool.and_eq_true_iff.mp (by rw [spacesOnly, List.all_cons] at hsp; exact hsp)
    have hspl : spacesOnly l = true := hsp'.2
    have hnol : noWsWs l = true := noWsWs_tail hno
    cases hw : isWsChar a with
    | true =>
      have ha : a = ' ' := by
        have := hsp'.1
        rw [hw] at this
        simpa using this
      have hhl : headNotWsB l = true := by
        cases l with
        | nil => rfl
        | cons b l' =>
          rw [noWsWs] at hno
          have h1 := (Bool.and_eq_true_iff.mp hno).1
          rw [headNotWsB]
          cases hb : isWsChar b with
          | false => rfl
          | true => rw [hw, hb] at h1; simp at h1
      obtain ⟨e1, e2⟩ := collapseWsAux_step_ws l hw
      refine ⟨?_, ?_⟩
      · rw [e2, (ih hnol hspl).2 hhl, ha]
      · intro hfalse
        rw [headNotWsB, hw] at hfalse
        simp at hfalse
    | false =>
      have h1 := (ih hnol hspl).1
      exact ⟨by rw [collapseWsAux_step_nws l false hw, h1],
        fun _ => by rw [collapseWsAux_step_nws l true hw, h1]⟩

theorem headNotWsB_dropWhile : ∀ l : List Char, headNotWsB (l.dropWhile isWsChar) = true := by
  intro l
  induction l with
  | nil => rfl
  | cons a l ih =>
    rw [List.dropWhile_cons]
    split
    · exact ih
    · next h =>
      rw [headNotWsB]
      simpa using h

theorem dropTrailIf_prefix (p : Char → Bool) :
    ∀ l : List Char, ∃ t, l = dropTrailIf p l ++ t := by
  intro l
  induction l with
  | nil => exact ⟨[], rfl⟩
  | cons c cs ih =>
    rw [dropTrailIf]
    cases h : dropTrailIf p cs with
    | nil =>
      by_cases hp : p c = true
      · simp only [hp, if_true]
        exact ⟨c :: cs, rfl⟩
      · simp only [hp, if_false]
        exact ⟨cs, rfl⟩
    | cons x xs =>
      obtain ⟨t, ht⟩ := ih
      rw [h] at ht
      exact ⟨t, by rw [List.cons_append, ← ht]⟩

theorem dropTrailIf_sublist (p : Char → Bool) (l : List Char) :
    List.Sublist (dropTrailIf p l) l := by
  obtain ⟨t, ht⟩ := dropTrailIf_prefix p l
  conv_rhs => rw [ht]
  exact List.sublist_append_left _ _

theorem headNotWsB_dropTrailIf (p : Char → Bool) (l : List Char)
    (h : headNotWsB l = true) : headNotWsB (dropTrailIf p l) = true := by
  obtain ⟨t, ht⟩ := dropTrailIf_prefix p l
  cases hd : dropTrailIf p l with
  | nil => rfl
  | cons x xs =>
    rw [hd, List.cons_append] at ht
    rw [headNotWsB]
    rw [ht, headNotWsB] at h
    exact h

theorem dropTrailIf_idem (p : Char → Bool) :
    ∀ l : List Char, dropTrailIf p (dropTrailIf p l) = dropTrailIf p l := by
  intro l
  induction l with
  | nil => rfl
  | cons c cs ih =>
    rw [dropTrailIf]
    cases h : dropTrailIf p cs with
    | nil =>
      by_cases hp : p c = true
      · simp [hp, dropTrailIf]
      · simp [hp, dropTrailIf]
    | cons x xs =>
      rw [dropTrailIf, ← h, ih, h]

theorem dropWhile_of_head (l : List Char) (h : headNotWsB l = true) :
    l.dropWhile isWsChar = l := by
  cases l with
  | nil => rfl
  | cons c cs =>
    have hc : isWsChar c = false := by simpa [headNotWsB] using h
    simp [List.dropWhile_cons, hc]

theorem stripL_sublist (l : List Char) : List.Sublist (stripL l) l :=
  (dropTrailIf_sublist _ _).trans (List.dropWhile_sublist _)

theorem stripL_head (l : List Char) : headNotWsB (stripL l) = true :=
  headNotWsB_dropTrailIf _ _ (headNotWsB_dropWhile l)

theorem stripL_idem (l : List Char) : stripL (stripL l) = stripL l := by
  rw [stripL, dropWhile_of_head _ (stripL_head l), stripL, dropTrailIf_idem]

theorem noWsWs_stripL (l : List Char) (h : noWsWs l = true) :
    noWsWs (stripL l) = true := by
  have h1 : noWsWs (l.dropWhile isWsChar) = true := by
    refine noWsWs_append_right (t := l.takeWhile isWsChar) ?_
    rw [List.takeWhile_append_dropWhile]
    exact h
  obtain ⟨t, ht⟩ := dropTrailIf_prefix isWsChar (l.dropWhile isWsChar)
  rw [ht] at h1
  exact noWsWs_append_left h1

theorem spacesOnly_subset {l m : List Char} (hsub : m ⊆ l) (h : spacesOnly l = true) :
    spacesOnly m = true := by
  rw [spacesOnly, List.all_eq_true] at h ⊢
  exact fun c hc => h c (hsub hc)

theorem splitOnChar_no_sep (sep : Char) :
    ∀ l : List Char, sep ∉ l → splitOnChar sep l = [l] := by
  intro l
  induction l with
  | nil => intro _; rfl
  | cons c cs ih =>
    intro h
    have hc : (c == sep) = false := by
      have hne : ¬sep = c := fun e => h (by rw [e]; exact List.mem_cons_self _ _)
      simpa using fun e => hne e.symm
    rw [splitOnChar, ih (fun hm => h (List.mem_cons_of_mem _ hm))]
    simp [hc]

theorem no_newline (l : List Char) (h : spacesOnly l = true) : '\n' ∉ l := by
  intro hm
  rw [spacesOnly, List.all_eq_true] at h
  exact absurd (h _ hm) (by decide)

theorem clean_text_eval (t : String) :
    clean_text t =
      if 10 < (stripL ((collapseWs t.data).filter keepChar)).length
      then String.mk (stripL ((collapseWs t.data).filter keepChar)) else "" := by
  have hsp : spacesOnly ((collapseWs t.data).filter keepChar) = true :=
    spacesOnly_subset (List.filter_subset' _) (collapseWsAux_spaces t.data false)
  have hnl : '\n' ∉ (collapseWs t.data).filter keepChar := no_newline _ hsp
  unfold clean_text
  dsimp only
  rw [pySplit, splitOnChar_no_sep _ _ hnl]
  simp only [List.map_cons, List.map_nil, pyStrip]
  have hlen : (String.mk (stripL ((collapseWs t.data).filter keepChar))).length =
      (stripL ((collapseWs t.data).filter keepChar)).length := rfl
  by_cases h10 : 10 < (stripL ((collapseWs t.data).filter keepChar)).length
  · rw [if_pos h10]
    simp [List.filter_cons, hlen, h10, joinSp]
  · rw [if_neg h10]
    simp [List.filter_cons, hlen, h10, joinSp]

/-- Claim C8 as stated is false: deleting a disallowed character can fuse two
whitespace runs, so the first application can leave a double space that a
second application collapses. -/
theorem c8_counterexample :
    clean_text (clean_text "aaaaaaaaaa @ b") ≠ clean_text "aaaaaaaaaa @ b" := by
  decide

/-- Claim C8 (amended): clean_text is idempotent on every input whose
characters all lie in the character allow-list it keeps (word characters,
whitespace, and `.,;:!?()-`); for inputs with a disallowed character between
whitespace a single application need not be a fixed point. -/
theorem c8_clean_text_idem (t : String)
    (h : ∀ c ∈ t.data, keepChar c = true) :
    clean_text (clean_text t) = clean_text t := by
  have hcoll_all : ∀ c ∈ collapseWs t.data, keepChar c = true := by
    intro c hc
    rcases collapseWsAux_mem t.data false c hc with rfl | hc'
    · decide
    · exact h c hc'
  have hfileq : (collapseWs t.data).filter keepChar = collapseWs t.data :=
    List.filter_eq_self.mpr hcoll_all
  rw [clean_text_eval t]
  by_cases h10 : 10 < (stripL ((collapseWs t.data).filter keepChar)).length
  · rw [if_pos h10]
    have hnoS : noWsWs (stripL ((collapseWs t.data).filter keepChar)) = true := by
      rw [hfileq]
      exact noWsWs_stripL _ (collapseWsAux_wsOk t.data).2
    have hspS : spacesOnly (stripL ((collapseWs t.data).filter keepChar)) = true :=
      spacesOnly_subset (stripL_sublist _).subset
        (spacesOnly_subset (List.filter_subset' _) (collapseWsAux_spaces t.data false))
    have hkeepS : ∀ c ∈ stripL ((collapseWs t.data).filter keepChar), keepChar c = true := by
      intro c hc
      exact (List.mem_filter.mp ((stripL_sublist _).subset hc)).2
    rw [clean_text_eval (String.mk (stripL ((collapseWs t.data).filter keepChar)))]
    have hdata : (String.mk (stripL ((collapseWs t.data).filter keepChar))).data =
        stripL ((collapseWs t.data).filter keepChar) := rfl
    rw [hdata]
    have hcS : collapseWs (stripL ((collapseWs t.data).filter keepChar)) =
        stripL ((collapseWs t.data).filter keepChar) :=
      (collapse_fix _ hnoS hspS).1
    rw [hcS, List.filter_eq_self.mpr hkeepS, stripL_idem, if_pos h10]
  · rw [if_neg h10]
    decide

theorem c8_witness :
    (∀ c ∈ ("The quick brown fox jumps over the dog" : String).data, keepChar c = true) ∧
      clean_text (clean_text "The quick brown fox jumps over the dog") =
        clean_text "The quick brown fox jumps over the dog" :=
  ⟨by decide, c8_clean_text_idem _ (by decide)⟩

end MCQGen
